import Mathlib

/-!
Shallow embedding of the core subsystem of the `weath` repository
(Market Signing & Bracket Resolution) and proofs about it.

Sources embedded:
  * `ka_bid.py`: `kalshi_headers` (with its catch-all returning `{}`),
    `strike_from_ticker`, and the bracket-selection loop in `main`.
  * `kalshi_past_bids_winfo.py`: `strike_sort_key` and the sort in
    `fetch_event_markets`, `derive_event_ticker`, the entry/settlement and
    implied-probability computations in `main`, and the winning-bracket scan.

Modelling conventions: Python floats are modelled as `ℚ` (all numbers in
this domain are integers or half-integers, exactly representable); Python
`None` as `Option.none`; a Python regex anchored at the string's end is
modelled by an explicit scanner over the reversed character list (for these
patterns the match, when it exists, is a unique suffix, which the
characterization theorems make precise); `\d` and `.upper()` are modelled
over ASCII, which covers the ticker alphabet.
-/

/-- Embedding of `ka_bid.py` `kalshi_headers`.  The timestamp and message are
built outside; what is embedded is the control flow: `load_private_key`
returning `None` or `sign_pss_text` returning `None` raises, the `except`
arm prints and returns the empty dict `{}`.  `loadKey` stands for the result
of `load_private_key()` and `sign` for `sign_pss_text` on the canonical
message. -/
def kalshi_headers {K : Type} (keyId ts : String) (loadKey : Option K)
    (sign : K → Option String) : List (String × String) :=
  match loadKey with
  | none => []
  | some key =>
    match sign key with
    | none => []
    | some sig =>
      [("KALSHI-ACCESS-KEY", keyId), ("KALSHI-ACCESS-SIGNATURE", sig),
       ("KALSHI-ACCESS-TIMESTAMP", ts), ("Content-Type", "application/json")]

/-- Decimal value of an ASCII digit string (most significant digit first). -/
def natOfDigits (ds : List Char) : ℕ :=
  ds.foldl (fun a c => 10 * a + (c.toNat - 48)) 0

/-- Step 1 of matching `-(B|T)(-?)\d+(\.5)?$` on the reversed ticker:
consume a trailing `.5` of the original string if present. -/
def stripHalf (r : List Char) : Bool × List Char :=
  match r with
  | a :: b :: rest => if a = '5' ∧ b = '.' then (true, rest) else (false, a :: b :: rest)
  | r => (false, r)

/-- Step 2: after the digits, consume the optional minus sign (only the
`kalshi_past_bids_winfo.py` regexes have `-?`; `ka_bid.py` does not). -/
def signSplit (allowNeg : Bool) (r : List Char) : Bool × List Char :=
  if allowNeg then
    match r with
    | a :: rest => if a = '-' then (true, rest) else (false, a :: rest)
    | [] => (false, [])
  else (false, r)

/-- Step 3: the bucket-kind letter `B` or `T` preceded (in the original
string) by a literal `-`; returns the remaining reversed stem. -/
def kindSplit (r : List Char) : Option (List Char) :=
  match r with
  | k :: d :: stem => if (k = 'B' ∨ k = 'T') ∧ d = '-' then some stem else none
  | _ => none

/-- Numeric value of the matched suffix, as Python's `float(...)` of the
captured group: optional sign, integer part, optional `.5`.  `dsRev` holds
the digits in reversed order. -/
def bucketVal (neg half : Bool) (dsRev : List Char) : ℚ :=
  (if neg then -1 else 1) * ((natOfDigits dsRev.reverse : ℚ) + if half then 1/2 else 0)

/-- Matcher for the outcome-bucket suffix regex on the reversed ticker.
`allowNeg = true` embeds `-(?:B|T)(-?\d+(?:\.5)?)$` / `-(B|T)[-]?\d+(?:\.5)?$`
(`kalshi_past_bids_winfo.py`); `allowNeg = false` embeds
`-(?:B|T)(\d+(?:\.5)?)$` (`ka_bid.py`).  Returns the reversed stem before
the suffix and the parsed number. -/
def bucketSplitRev (allowNeg : Bool) (r : List Char) : Option (List Char × ℚ) :=
  let hr := stripHalf r
  let ds := hr.2.takeWhile Char.isDigit
  if ds.isEmpty then none
  else
    let sr := signSplit allowNeg (hr.2.dropWhile Char.isDigit)
    (kindSplit sr.2).map (fun stem => (stem, bucketVal sr.1 hr.1 ds))

/-- Suffix matcher on a ticker: the stem before the bucket suffix (in order)
and the parsed strike. -/
def bucketSplit (allowNeg : Bool) (t : String) : Option (List Char × ℚ) :=
  (bucketSplitRev allowNeg t.data.reverse).map (fun pv => (pv.1.reverse, pv.2))

/-- Embedding of `ka_bid.py` `strike_from_ticker`:
`re.search(r'-(?:B|T)(\d+(?:\.5)?)$', ticker)`, `float` of the group, else
`None`.  Note the pattern has no minus sign. -/
def strike_from_ticker (t : String) : Option ℚ :=
  (bucketSplit false t).map Prod.snd

/-- Embedding of the `strike_sort_key` closure in
`kalshi_past_bids_winfo.py` `fetch_event_markets`:
`re.search(r"-(?:B|T)(-?\d+(?:\.5)?)$", t)`, sentinel `10**9` when absent. -/
def strike_sort_key (t : String) : ℚ :=
  ((bucketSplit true t).map Prod.snd).getD (10 ^ 9)

/-- Embedding of Python `str.split('-')`. -/
def splitHy : List Char → List (List Char)
  | [] => [[]]
  | c :: rest =>
    if c = '-' then [] :: splitHy rest
    else
      match splitHy rest with
      | [] => [[c]]
      | h :: tl => (c :: h) :: tl

/-- Embedding of Python `'-'.join(...)`. -/
def joinHy : List (List Char) → List Char
  | [] => []
  | [x] => x
  | x :: xs => x ++ '-' :: joinHy xs

/-- Embedding of `kalshi_past_bids_winfo.py` `derive_event_ticker`: strip a
matching bucket suffix (`re.search(r'-(B|T)[-]?\d+(?:\.5)?$', ticker)`,
`ticker[:m.start()]`); otherwise drop the last `-`-separated segment when
there are at least two; otherwise return the ticker unchanged. -/
def derive_event_ticker (t : String) : String :=
  match bucketSplit true t with
  | some st => String.mk st.1
  | none =>
    let parts := splitHy t.data
    if 2 ≤ parts.length then String.mk (joinHy parts.dropLast) else t

/-- Embedding of the bracket-selection loop in `ka_bid.py` `main`:
`if temp < strike: continue`, `if temp < strike + 1: break` with the match. -/
def resolveScan : List (ℚ × String) → ℚ → Option String
  | [], _ => none
  | sb :: rest, temp =>
    if temp < sb.1 then resolveScan rest temp
    else if temp < sb.1 + 1 then some sb.2
    else resolveScan rest temp

/-- Embedding of the selection plus the `if not chosen_ticker` arm of
`ka_bid.py` `main`: when the scan chooses nothing, fall back to
`parsed[-1]` and flag it (the `⚠️ ABOVE TOP BRACKET` branch); `none` models
the `IndexError` on an empty `parsed`. -/
def resolve (br : List (ℚ × String)) (temp : ℚ) : Option (String × Bool) :=
  match resolveScan br temp with
  | some t => some (t, false)
  | none => br.getLast?.map (fun sb => (sb.2, true))

/-- Comparison used by `parsed.sort(key=lambda x: x[0])` in `ka_bid.py`. -/
def bracketLe (a b : ℚ × String) : Bool := decide (a.1 ≤ b.1)

/-- Embedding of the `parsed` list built in `ka_bid.py` `main`: keep only
tickers with a parsed strike, pair them, and stable-sort by strike. -/
def ka_parsed (tickers : List String) : List (ℚ × String) :=
  (tickers.filterMap (fun t => (strike_from_ticker t).map (fun s => (s, t)))).mergeSort bracketLe

/-- The fields of a Kalshi market record read by
`kalshi_past_bids_winfo.py`. -/
structure Market where
  ticker : String
  result : Option String
  subtitle : Option String
  title : Option String
  description : Option String
  yes_title : Option String
  no_title : Option String
  last_price : Option ℤ
  yes_bid : Option ℤ
  yes_ask : Option ℤ
deriving DecidableEq

/-- Python `a or b` for an optional string `a` (both `None` and `""` are
falsy) against a string default. -/
def pyOrStr (a : Option String) (b : String) : String :=
  match a with
  | some s => if s = "" then b else s
  | none => b

/-- ASCII uppercase of one character (tickers and result fields are ASCII). -/
def charUpper (c : Char) : Char :=
  if 'a' ≤ c ∧ c ≤ 'z' then Char.ofNat (c.toNat - 32) else c

/-- ASCII embedding of Python `str.upper()`. -/
def strUpper (s : String) : String := String.mk (s.data.map charUpper)

/-- Embedding of `(market.get("result") or "").upper()`. -/
def market_result (m : Market) : String := strUpper (pyOrStr m.result "")

/-- Embedding of the settlement block of `kalshi_past_bids_winfo.py` `main`:
`won_lost`/`pnl` stay empty (`("", none)`) unless `market_result` is
`"YES"` or `"NO"`; otherwise `win` decides `WON`/`LOST` and the pnl
formula.  Float arithmetic is modelled exactly over `ℚ`. -/
def settle_row (side : String) (price shares : ℤ) (mres : String) : String × Option ℚ :=
  if mres = "YES" ∨ mres = "NO" then
    if (side = "yes" ∧ mres = "YES") ∨ (side = "no" ∧ mres = "NO") then
      ("WON", some ((((100 - price) * shares : ℤ) : ℚ) / 100))
    else
      ("LOST", some (-(((price * shares : ℤ) : ℚ)) / 100))
  else ("", none)

/-- Python `a or b` on optional integers (`None` and `0` are falsy). -/
def pyOrInt (a b : Option ℤ) : Option ℤ :=
  match a with
  | some v => if v = 0 then b else some v
  | none => b

/-- Embedding of `market.get("last_price") or market.get("yes_bid") or
market.get("yes_ask")` in `kalshi_past_bids_winfo.py` `main`. -/
def current_yes (m : Market) : Option ℤ :=
  pyOrInt m.last_price (pyOrInt m.yes_bid m.yes_ask)

/-- Round-half-to-even to an integer, as Python's `round`. -/
def round_half_even (q : ℚ) : ℤ :=
  if q - ⌊q⌋ < 1/2 then ⌊q⌋
  else if 1/2 < q - ⌊q⌋ then ⌊q⌋ + 1
  else if ⌊q⌋ % 2 = 0 then ⌊q⌋ else ⌊q⌋ + 1

/-- Python `round(q, 4)` over exact rationals. -/
def py_round4 (q : ℚ) : ℚ := (round_half_even (q * 10 ^ 4) : ℚ) / 10 ^ 4

/-- Embedding of the `implied_pct` computation in
`kalshi_past_bids_winfo.py` `main`: empty when `current_yes` is `None`,
else `round(cy/100 if side == "yes" else (100 - cy)/100, 4)`. -/
def implied_pct (side : String) (m : Market) : Option ℚ :=
  match current_yes m with
  | none => none
  | some cy =>
    some (py_round4 (if side = "yes" then (cy : ℚ) / 100 else ((100 : ℚ) - (cy : ℚ)) / 100))

/-- First truthy string of an accessor chain, as a Python `or`-chain
ending in `""`. -/
def firstTruthyStr : List (Option String) → String
  | [] => ""
  | x :: rest =>
    match x with
    | some s => if s = "" then firstTruthyStr rest else s
    | none => firstTruthyStr rest

/-- Embedding of the label chain `m.get("subtitle") or m.get("title") or
m.get("description") or m.get("yes_title") or m.get("no_title") or ""`. -/
def bracket_label (m : Market) : String :=
  firstTruthyStr [m.subtitle, m.title, m.description, m.yes_title, m.no_title]

/-- Embedding of the winning-bracket `for`/`break` loop in
`kalshi_past_bids_winfo.py` `main`. -/
def scan_winning : List Market → String × String
  | [] => ("", "")
  | m :: rest =>
    if market_result m = "YES" then (m.ticker, bracket_label m) else scan_winning rest

/-- The winning-bracket fields as produced by `main`: scanned only when the
fill's own market result is `"YES"` or `"NO"`, else left empty. -/
def winning_bracket (mres : String) (ms : List Market) : String × String :=
  if mres = "YES" ∨ mres = "NO" then scan_winning ms else ("", "")

/-- Comparison used by `sorted(markets, key=strike_sort_key)` in
`kalshi_past_bids_winfo.py` `fetch_event_markets`. -/
def marketKeyLe (a b : Market) : Bool :=
  decide (strike_sort_key a.ticker ≤ strike_sort_key b.ticker)

/-- Embedding of the sort performed by `fetch_event_markets`. -/
def fetch_event_markets_sort (ms : List Market) : List Market :=
  ms.mergeSort marketKeyLe

/-- Decomposition of a ticker into stem, bucket-kind letter, optional sign,
digits and optional `.5`, with the value the suffix denotes: the
declarative reading of the suffix regex family. -/
def BucketDecomp (allowNeg : Bool) (t : String) (stem : List Char) (v : ℚ) : Prop :=
  ∃ k sgn ds h, t.data = stem ++ '-' :: k :: (sgn ++ ds ++ h) ∧
    (k = 'B' ∨ k = 'T') ∧
    (sgn = [] ∨ (allowNeg = true ∧ sgn = ['-'])) ∧
    ds ≠ [] ∧ (∀ c ∈ ds, c.isDigit = true) ∧
    (h = [] ∨ h = ['.', '5']) ∧
    v = (if sgn = ['-'] then -1 else 1) *
      ((natOfDigits ds : ℚ) + if h = ['.', '5'] then 1/2 else 0)

lemma digit_ne_dot {c : Char} (h : c.isDigit = true) : c ≠ '.' := by
  rintro rfl; simp [Char.isDigit] at h

lemma digit_ne_hyphen {c : Char} (h : c.isDigit = true) : c ≠ '-' := by
  rintro rfl; simp [Char.isDigit] at h

lemma kind_not_digit {k : Char} (hk : k = 'B' ∨ k = 'T') : k.isDigit = false := by
  rcases hk with rfl | rfl <;> rfl

lemma kind_ne_dot {k : Char} (hk : k = 'B' ∨ k = 'T') : k ≠ '.' := by
  rcases hk with rfl | rfl <;> decide

lemma kind_ne_hyphen {k : Char} (hk : k = 'B' ∨ k = 'T') : k ≠ '-' := by
  rcases hk with rfl | rfl <;> decide

lemma takeWhile_all_append {p : Char → Bool} :
    ∀ (l r : List Char), (∀ c ∈ l, p c = true) → (∀ c, r.head? = some c → p c = false) →
      (l ++ r).takeWhile p = l ∧ (l ++ r).dropWhile p = r
  | [], r, _, hr => by
      cases r with
      | nil => simp
      | cons a r' =>
        have ha : p a = false := hr a rfl
        simp [List.takeWhile_cons, List.dropWhile_cons, ha]
  | c :: l', r, hl, hr => by
      have hc : p c = true := hl c (by simp)
      have ih := takeWhile_all_append l' r (fun x hx => hl x (by simp [hx])) hr
      simp [List.takeWhile_cons, List.dropWhile_cons, hc, ih.1, ih.2]

lemma stripHalf_half (tl : List Char) : stripHalf ('5' :: '.' :: tl) = (true, tl) := by
  simp [stripHalf]

lemma stripHalf_of_ne (r : List Char)
    (h : ∀ a b tl, r = a :: b :: tl → ¬(a = '5' ∧ b = '.')) : stripHalf r = (false, r) := by
  match r with
  | [] => rfl
  | [a] => rfl
  | a :: b :: tl => simp [stripHalf, if_neg (h a b tl rfl)]

lemma stripHalf_spec (r : List Char) :
    (stripHalf r).1 = true ∧ r = '5' :: '.' :: (stripHalf r).2 ∨
      (stripHalf r).1 = false ∧ (stripHalf r).2 = r := by
  match r with
  | [] => right; exact ⟨rfl, rfl⟩
  | [a] => right; exact ⟨rfl, rfl⟩
  | a :: b :: tl =>
    by_cases hab : a = '5' ∧ b = '.'
    · left; obtain ⟨rfl, rfl⟩ := hab; simp [stripHalf]
    · right; simp [stripHalf, if_neg hab]

lemma signSplit_cons_ne {b : Bool} {k : Char} (tl : List Char) (hk : k ≠ '-') :
    signSplit b (k :: tl) = (false, k :: tl) := by
  cases b <;> simp [signSplit, hk]

lemma signSplit_spec (b : Bool) (r : List Char) :
    (signSplit b r).1 = true ∧ b = true ∧ r = '-' :: (signSplit b r).2 ∨
      (signSplit b r).1 = false ∧ (signSplit b r).2 = r := by
  cases b with
  | false => right; exact ⟨rfl, rfl⟩
  | true =>
    match r with
    | [] => right; exact ⟨rfl, rfl⟩
    | a :: tl =>
      by_cases ha : a = '-'
      · left; subst ha; simp [signSplit]
      · right; simp [signSplit, ha]

lemma kindSplit_eq_some {r stem : List Char} (h : kindSplit r = some stem) :
    ∃ k, (k = 'B' ∨ k = 'T') ∧ r = k :: '-' :: stem := by
  match r with
  | [] => simp [kindSplit] at h
  | [a] => simp [kindSplit] at h
  | k :: d :: tl =>
    simp only [kindSplit] at h
    split at h
    · rename_i hkd
      obtain ⟨hk, rfl⟩ := hkd
      cases h
      exact ⟨k, hk, rfl⟩
    · cases h

lemma kindSplit_cons {k : Char} {stem : List Char} (hk : k = 'B' ∨ k = 'T') :
    kindSplit (k :: '-' :: stem) = some stem := by
  simp [kindSplit, hk]

lemma bucketSplitRev_eq_some_of (allowNeg neg half : Bool) (k : Char) (dsR stemR : List Char)
    (hk : k = 'B' ∨ k = 'T') (hneg : neg = true → allowNeg = true)
    (hds : dsR ≠ []) (hdig : ∀ c ∈ dsR, c.isDigit = true) :
    bucketSplitRev allowNeg
      ((if half then ['5', '.'] else []) ++ (dsR ++ ((if neg then ['-'] else []) ++ (k :: '-' :: stemR)))) =
      some (stemR, bucketVal neg half dsR) := by
  obtain ⟨d, ds', rfl⟩ := List.exists_cons_of_ne_nil hds
  have hrestHead : ∀ c, ((if neg then ['-'] else []) ++ (k :: '-' :: stemR)).head? = some c →
      c.isDigit = false := by
    intro c hc
    cases neg with
    | true =>
      simp only [if_pos, List.cons_append, List.head?_cons] at hc
      cases hc; rfl
    | false =>
      simp only [if_neg, Bool.false_eq_true, not_false_iff, List.nil_append, List.head?_cons] at hc
      cases hc; exact kind_not_digit hk
  have hstrip : stripHalf ((if half then ['5', '.'] else []) ++
      ((d :: ds') ++ ((if neg then ['-'] else []) ++ (k :: '-' :: stemR)))) =
      (half, (d :: ds') ++ ((if neg then ['-'] else []) ++ (k :: '-' :: stemR))) := by
    cases half with
    | true => simpa using stripHalf_half _
    | false =>
      simp only [if_neg, Bool.false_eq_true, not_false_iff, List.nil_append]
      apply stripHalf_of_ne
      intro a b tl heq hab
      obtain ⟨rfl, rfl⟩ := hab
      have heq' : d :: (ds' ++ ((if neg then ['-'] else []) ++ (k :: '-' :: stemR))) =
          '5' :: '.' :: tl := by simpa using heq
      injection heq' with h1 h2
      cases ds' with
      | nil =>
        simp only [List.nil_append] at h2
        cases neg with
        | true =>
          simp only [if_pos, List.cons_append] at h2
          injection h2 with h3 _
          exact absurd h3 (by decide)
        | false =>
          simp only [if_neg, Bool.false_eq_true, not_false_iff, List.nil_append] at h2
          injection h2 with h3 _
          exact absurd h3 (kind_ne_dot hk)
      | cons e tl2 =>
        simp only [List.cons_append] at h2
        injection h2 with h3 _
        exact absurd h3 (digit_ne_dot (hdig e (by simp)))
  have htw := takeWhile_all_append (d :: ds') ((if neg then ['-'] else []) ++ (k :: '-' :: stemR))
    hdig hrestHead
  have hsign : signSplit allowNeg ((if neg then ['-'] else []) ++ (k :: '-' :: stemR)) =
      (neg, k :: '-' :: stemR) := by
    cases neg with
    | true =>
      have ha : allowNeg = true := hneg rfl
      subst ha
      simp [signSplit]
    | false =>
      simp only [if_neg, Bool.false_eq_true, not_false_iff, List.nil_append]
      exact signSplit_cons_ne _ (kind_ne_hyphen hk)
  simp only [bucketSplitRev, hstrip, htw.1, htw.2, hsign, List.isEmpty_cons,
    Bool.false_eq_true, if_false, kindSplit_cons hk, Option.map_some']

lemma decomp_of_bucketSplitRev (allowNeg : Bool) (r stemR : List Char) (v : ℚ)
    (hp : bucketSplitRev allowNeg r = some (stemR, v)) :
    ∃ neg half k dsR, (k = 'B' ∨ k = 'T') ∧ (neg = true → allowNeg = true) ∧ dsR ≠ [] ∧
      (∀ c ∈ dsR, c.isDigit = true) ∧
      r = (if half then ['5', '.'] else []) ++
        (dsR ++ ((if neg then ['-'] else []) ++ (k :: '-' :: stemR))) ∧
      v = bucketVal neg half dsR := by
  simp only [bucketSplitRev] at hp
  split at hp
  · cases hp
  · rename_i hne
    rcases Option.map_eq_some'.mp hp with ⟨stem0, hks, heq⟩
    injection heq with h1 h2
    obtain ⟨k, hk, hX⟩ := kindSplit_eq_some hks
    rw [h1] at hX
    have hdsne : (stripHalf r).2.takeWhile Char.isDigit ≠ [] := by
      intro h0
      rw [h0] at hne
      simp at hne
    have hdig : ∀ c ∈ (stripHalf r).2.takeWhile Char.isDigit, c.isDigit = true :=
      fun c hc => List.mem_takeWhile_imp hc
    have hsplit2 : (stripHalf r).2 =
        ((stripHalf r).2.takeWhile Char.isDigit) ++ ((stripHalf r).2.dropWhile Char.isDigit) :=
      (List.takeWhile_append_dropWhile Char.isDigit _).symm
    rcases signSplit_spec allowNeg ((stripHalf r).2.dropWhile Char.isDigit) with
      ⟨hs1, hb, hs2⟩ | ⟨hs1, hs2⟩
    · have hD : (stripHalf r).2.dropWhile Char.isDigit = '-' :: k :: '-' :: stemR := by
        rw [hs2, hX]
      have hr3 : (stripHalf r).2 = ((stripHalf r).2.takeWhile Char.isDigit) ++
          (['-'] ++ (k :: '-' :: stemR)) := by
        conv_lhs => rw [hsplit2, hD]
        rfl
      refine ⟨true, (stripHalf r).1, k, (stripHalf r).2.takeWhile Char.isDigit, hk,
        fun _ => hb, hdsne, hdig, ?_, ?_⟩
      · simp only [if_pos]
        rcases stripHalf_spec r with ⟨hh1, hh2⟩ | ⟨hh1, hh2⟩
        · rw [hh1, if_pos rfl]
          conv_lhs => rw [hh2, hr3]
          simp
        · rw [hh1]
          simp only [Bool.false_eq_true, if_false, List.nil_append]
          conv_lhs => rw [← hh2, hr3]
      · rw [← h2, hs1]
    · have hD : (stripHalf r).2.dropWhile Char.isDigit = k :: '-' :: stemR := by
        rw [← hs2, hX]
      have hr3 : (stripHalf r).2 = ((stripHalf r).2.takeWhile Char.isDigit) ++
          (k :: '-' :: stemR) := by
        conv_lhs => rw [hsplit2, hD]
      refine ⟨false, (stripHalf r).1, k, (stripHalf r).2.takeWhile Char.isDigit, hk,
        fun hcon => absurd hcon (by decide), hdsne, hdig, ?_, ?_⟩
      · simp only [Bool.false_eq_true, if_false, List.nil_append]
        rcases stripHalf_spec r with ⟨hh1, hh2⟩ | ⟨hh1, hh2⟩
        · rw [hh1, if_pos rfl]
          conv_lhs => rw [hh2, hr3]
          simp
        · rw [hh1]
          simp only [Bool.false_eq_true, if_false, List.nil_append]
          conv_lhs => rw [← hh2, hr3]
      · rw [← h2, hs1]

lemma bucketSplit_eq_some_of (allowNeg neg half : Bool) (t : String) (stem : List Char)
    (k : Char) (ds : List Char) (hk : k = 'B' ∨ k = 'T') (hneg : neg = true → allowNeg = true)
    (hds : ds ≠ []) (hdig : ∀ c ∈ ds, c.isDigit = true)
    (ht : t.data = stem ++ '-' :: k ::
      ((if neg then ['-'] else []) ++ ds ++ (if half then ['.', '5'] else []))) :
    bucketSplit allowNeg t = some (stem, bucketVal neg half ds.reverse) := by
  have hrev : t.data.reverse = (if half then ['5', '.'] else []) ++
      (ds.reverse ++ ((if neg then ['-'] else []) ++ (k :: '-' :: stem.reverse))) := by
    rw [ht]
    cases neg <;> cases half <;> simp [List.reverse_append]
  have hmain := bucketSplitRev_eq_some_of allowNeg neg half k ds.reverse stem.reverse hk hneg
    (by simpa using hds) (fun c hc => hdig c (List.mem_reverse.mp hc))
  unfold bucketSplit
  rw [hrev, hmain]
  simp

lemma bucketSplit_iff (allowNeg : Bool) (t : String) (stem : List Char) (v : ℚ) :
    bucketSplit allowNeg t = some (stem, v) ↔ BucketDecomp allowNeg t stem v := by
  constructor
  · intro hp
    rcases Option.map_eq_some'.mp hp with ⟨pv, hrev, heq⟩
    obtain ⟨stemR, v0⟩ := pv
    injection heq with h1 h2
    obtain ⟨neg, half, k, dsR, hk, hneg, hds, hdig, hr, hv⟩ :=
      decomp_of_bucketSplitRev allowNeg _ _ _ hrev
    refine ⟨k, (if neg then ['-'] else []), dsR.reverse, (if half then ['.', '5'] else []),
      ?_, hk, ?_, by simpa using hds, fun c hc => hdig c (List.mem_reverse.mp hc), ?_, ?_⟩
    · have ht : t.data = (t.data.reverse).reverse := (List.reverse_reverse _).symm
      rw [ht, hr, ← h1]
      cases neg <;> cases half <;> simp [List.reverse_append]
    · cases neg with
      | false => exact Or.inl (by simp)
      | true => exact Or.inr ⟨hneg rfl, by simp⟩
    · cases half <;> simp
    · rw [← h2, hv]
      cases neg <;> cases half <;> simp [bucketVal]
  · rintro ⟨k, sgn, ds, h, ht, hk, hsgn, hds, hdig, hh, hv⟩
    have hval : ∀ (neg half : Bool), sgn = (if neg then ['-'] else []) →
        h = (if half then ['.', '5'] else []) → (neg = true → allowNeg = true) →
        bucketSplit allowNeg t = some (stem, v) := by
      intro neg half hs hhh hna
      have ht' : t.data = stem ++ '-' :: k ::
          ((if neg then ['-'] else []) ++ ds ++ (if half then ['.', '5'] else [])) := by
        rw [ht, hs, hhh]
      rw [bucketSplit_eq_some_of allowNeg neg half t stem k ds hk hna hds hdig ht']
      have : bucketVal neg half ds.reverse = v := by
        rw [hv, hs, hhh]
        cases neg <;> cases half <;> simp [bucketVal]
      rw [this]
    rcases hsgn with rfl | ⟨hA, rfl⟩
    · rcases hh with rfl | rfl
      · exact hval false false (by simp) (by simp) (fun hcon => absurd hcon (by decide))
      · exact hval false true (by simp) (by simp) (fun hcon => absurd hcon (by decide))
    · rcases hh with rfl | rfl
      · exact hval true false (by simp) (by simp) (fun _ => hA)
      · exact hval true true (by simp) (by simp) (fun _ => hA)

lemma splitHy_ne_nil : ∀ l, splitHy l ≠ []
  | [] => by simp [splitHy]
  | c :: rest => by
    by_cases hc : c = '-'
    · simp [splitHy, hc]
    · simp only [splitHy, hc, if_false]
      split <;> simp

lemma splitHy_no_sep : ∀ (l : List Char), '-' ∉ l → splitHy l = [l]
  | [], _ => rfl
  | c :: rest, h => by
    have hc : c ≠ '-' := fun hcc => h (by simp [hcc])
    have ih := splitHy_no_sep rest (fun hm => h (by simp [hm]))
    simp [splitHy, hc, ih]

lemma splitHy_len_ge_two : ∀ (l : List Char), '-' ∈ l → 2 ≤ (splitHy l).length
  | c :: rest, h => by
    by_cases hc : c = '-'
    · have h1 : 1 ≤ (splitHy rest).length :=
        List.length_pos.mpr (splitHy_ne_nil rest)
      simp only [splitHy, hc, if_pos, List.length_cons]
      omega
    · have hr : '-' ∈ rest := by
        rcases List.mem_cons.mp h with hh | hh
        · exact absurd hh.symm hc
        · exact hh
      have ih := splitHy_len_ge_two rest hr
      rcases hsp : splitHy rest with _ | ⟨h0, tl⟩
      · exact absurd hsp (splitHy_ne_nil rest)
      · rw [hsp] at ih
        simp only [splitHy, hc, if_false, hsp, List.length_cons] at *
        omega

lemma joinHy_cons_cons (c : Char) (x : List Char) (M : List (List Char)) :
    joinHy ((c :: x) :: M) = c :: joinHy (x :: M) := by
  cases M <;> simp [joinHy]

lemma joinHy_dropLast_splitHy : ∀ (l : List Char), '-' ∈ l →
    ∃ s, l = joinHy ((splitHy l).dropLast) ++ '-' :: s ∧ '-' ∉ s
  | c :: rest, h => by
    by_cases hc : c = '-'
    · subst hc
      by_cases hr : '-' ∈ rest
      · obtain ⟨s, hs, hns⟩ := joinHy_dropLast_splitHy rest hr
        have hL2 : 2 ≤ (splitHy rest).length := splitHy_len_ge_two rest hr
        refine ⟨s, ?_, hns⟩
        rcases hsp : splitHy rest with _ | ⟨h0, tl⟩
        · exact absurd hsp (splitHy_ne_nil rest)
        · rcases tl with _ | ⟨t1, tl1⟩
          · rw [hsp] at hL2
            simp at hL2
          · rw [hsp] at hs
            simp only [splitHy, if_pos, hsp, List.dropLast_cons₂, List.nil_append]
            rw [show joinHy ([] :: h0 :: (t1 :: tl1).dropLast) =
              '-' :: joinHy (h0 :: (t1 :: tl1).dropLast) by simp [joinHy]]
            simp only [List.dropLast_cons₂] at hs
            rw [List.cons_append, ← hs]
      · refine ⟨rest, ?_, hr⟩
        simp [splitHy, splitHy_no_sep rest hr, joinHy]
    · have hr : '-' ∈ rest := by
        rcases List.mem_cons.mp h with hh | hh
        · exact absurd hh.symm hc
        · exact hh
      obtain ⟨s, hs, hns⟩ := joinHy_dropLast_splitHy rest hr
      have hL2 : 2 ≤ (splitHy rest).length := splitHy_len_ge_two rest hr
      rcases hsp : splitHy rest with _ | ⟨h0, tl⟩
      · exact absurd hsp (splitHy_ne_nil rest)
      · rcases tl with _ | ⟨t1, tl1⟩
        · rw [hsp] at hL2
          simp at hL2
        · refine ⟨s, ?_, hns⟩
          rw [hsp] at hs
          simp only [splitHy, hc, if_false, hsp, List.dropLast_cons₂]
          rw [joinHy_cons_cons]
          simp only [List.dropLast_cons₂] at hs
          rw [List.cons_append, ← hs]

lemma resolveScan_eq_find : ∀ (l : List (ℚ × String)) (v : ℚ),
    resolveScan l v = (l.find? (fun sb => decide (sb.1 ≤ v ∧ v < sb.1 + 1))).map Prod.snd
  | [], _ => rfl
  | sb :: rest, v => by
    by_cases h1 : v < sb.1
    · have hp : ¬(sb.1 ≤ v ∧ v < sb.1 + 1) := fun hc => absurd h1 (not_lt.mpr hc.1)
      rw [List.find?_cons_of_neg _ (by simpa using hp)]
      simp only [resolveScan, if_pos h1]
      exact resolveScan_eq_find rest v
    · by_cases h2 : v < sb.1 + 1
      · have hp : sb.1 ≤ v ∧ v < sb.1 + 1 := ⟨not_lt.mp h1, h2⟩
        rw [List.find?_cons_of_pos _ (by simpa using hp)]
        simp [resolveScan, if_neg h1, if_pos h2]
      · have hp : ¬(sb.1 ≤ v ∧ v < sb.1 + 1) := fun hc => absurd hc.2 h2
        rw [List.find?_cons_of_neg _ (by simpa using hp)]
        simp only [resolveScan, if_neg h1, if_neg h2]
        exact resolveScan_eq_find rest v

lemma pair_le_getLast : ∀ (l : List (ℚ × String)) (hne : l ≠ []) (p : ℚ × String),
    List.Pairwise (fun a b : ℚ × String => a.1 ≤ b.1) l → p ∈ l → p.1 ≤ (l.getLast hne).1
  | [], hne, _, _, _ => absurd rfl hne
  | [x], _, p, _, hp => by
    simp only [List.mem_singleton] at hp
    subst hp
    simp [List.getLast]
  | x :: y :: tl, _, p, hpw, hp => by
    have hne2 : y :: tl ≠ [] := by simp
    rw [List.getLast_cons hne2]
    rcases List.mem_cons.mp hp with rfl | hmem
    · exact (List.pairwise_cons.mp hpw).1 _ (List.getLast_mem hne2)
    · exact pair_le_getLast (y :: tl) hne2 p (List.pairwise_cons.mp hpw).2 hmem

lemma scan_winning_eq_find : ∀ (l : List Market),
    scan_winning l = (match l.find? (fun m => decide (market_result m = "YES")) with
      | some m => (m.ticker, bracket_label m)
      | none => ("", "")) 
  | [] => rfl
  | m :: rest => by
    by_cases hm : market_result m = "YES"
    · rw [List.find?_cons_of_pos _ (by simpa using hm)]
      simp [scan_winning, hm]
    · rw [List.find?_cons_of_neg _ (by simpa using hm)]
      simp only [scan_winning, if_neg hm]
      exact scan_winning_eq_find rest

/-- C2: settlement rules of `kalshi_past_bids_winfo.py` `main`.  When the
market result is neither `"YES"` nor `"NO"` (the UNRESOLVED case, stored as
empty strings, the spec's PENDING/null), `settle_row` returns `("", none)`;
otherwise `win` holds exactly when the fill's side (uppercased) equals the
result, a win pays `(100 - price) * shares / 100` with label `WON`, and a
loss pays `-(price * shares) / 100` with label `LOST`. -/
theorem settle_rules (side : String) (price shares : ℤ) (mres : String)
    (hside : side = "yes" ∨ side = "no") (hp0 : 0 ≤ price) (hp1 : price ≤ 100)
    (hs : 1 ≤ shares) :
    (¬(mres = "YES" ∨ mres = "NO") → settle_row side price shares mres = ("", none)) ∧
    ((mres = "YES" ∨ mres = "NO") →
      (((side = "yes" ∧ mres = "YES") ∨ (side = "no" ∧ mres = "NO")) ↔ strUpper side = mres) ∧
      (((side = "yes" ∧ mres = "YES") ∨ (side = "no" ∧ mres = "NO")) →
        settle_row side price shares mres =
          ("WON", some ((((100 - price) * shares : ℤ) : ℚ) / 100))) ∧
      (¬((side = "yes" ∧ mres = "YES") ∨ (side = "no" ∧ mres = "NO")) →
        settle_row side price shares mres =
          ("LOST", some (-(((price * shares : ℤ) : ℚ)) / 100)))) := by
  refine ⟨fun hn => by simp only [settle_row, if_neg hn], fun hr => ⟨?_, ?_, ?_⟩⟩
  · rcases hside with rfl | rfl <;> rcases hr with rfl | rfl <;> decide
  · intro hw
    simp only [settle_row, if_pos hr, if_pos hw]
  · intro hw
    simp only [settle_row, if_pos hr, if_neg hw]

/-- Witness for C2 at the spec's Example 6: a NO fill at 60 cents for 2
shares against a YES outcome loses the full stake. -/
theorem settle_rules_witness :
    settle_row "no" 60 2 "YES" = ("LOST", some (-(((60 * 2 : ℤ) : ℚ)) / 100)) :=
  ((settle_rules "no" 60 2 "YES" (Or.inr rfl) (by decide) (by decide) (by decide)).2
    (Or.inl rfl)).2.2 (by decide)

/-- C5 counterexample: when the private key fails to parse
(`loadKey = none`), `kalshi_headers` of `ka_bid.py` returns the empty
header set `{}` — not a typed failure distinguishable from headers — so the
claim that a typed failure is surfaced instead of an empty header set is
false on this code. -/
theorem headers_empty_on_failure_cex :
    kalshi_headers "key-id" "1700000000000" (none : Option Unit) (fun _ => some "sig") = [] :=
  rfl

/-- C5 amended: `ka_bid.py` `kalshi_headers` returns the empty header set
exactly when key loading or signing fails (no typed failure is surfaced; the
caller proceeds to issue the request with `{}`), and on success returns
exactly the four expected headers, so emptiness is the only way a caller
could distinguish failure. -/
theorem headers_empty_iff_failure {K : Type} (keyId ts : String) (loadKey : Option K)
    (sign : K → Option String) :
    (kalshi_headers keyId ts loadKey sign = [] ↔
      loadKey = none ∨ ∃ k, loadKey = some k ∧ sign k = none) ∧
    (∀ k sig, loadKey = some k → sign k = some sig →
      kalshi_headers keyId ts loadKey sign =
        [("KALSHI-ACCESS-KEY", keyId), ("KALSHI-ACCESS-SIGNATURE", sig),
         ("KALSHI-ACCESS-TIMESTAMP", ts), ("Content-Type", "application/json")]) := by
  constructor
  · cases loadKey with
    | none => simp [kalshi_headers]
    | some k =>
      cases hsk : sign k with
      | none => simp [kalshi_headers, hsk]
      | some sig => simp [kalshi_headers, hsk]
  · intro k sig hk hs
    subst hk
    simp [kalshi_headers, hs]

/-- Witness for C5 (amended): a successful load and sign yields the four
headers. -/
theorem headers_empty_iff_failure_witness :
    kalshi_headers "key-id" "1700000000000" (some ()) (fun _ => some "sig") =
      [("KALSHI-ACCESS-KEY", "key-id"), ("KALSHI-ACCESS-SIGNATURE", "sig"),
       ("KALSHI-ACCESS-TIMESTAMP", "1700000000000"), ("Content-Type", "application/json")] :=
  (headers_empty_iff_failure "key-id" "1700000000000" (some ()) (fun _ => some "sig")).2
    () "sig" rfl rfl

/-- C1 counterexample: on the sorted bracket list `[(20, A), (25, B)]` the
observation `22` lies within `[min_strike, max_strike + 1) = [20, 26)`, yet
no bracket's unit interval contains it, and `resolve` returns the last
bracket `B` with `fallback_used = true` — not a first containing bracket
with `fallback_used = false` as the claim states. -/
theorem resolve_gap_cex :
    resolve [((20 : ℚ), "A"), (25, "B")] 22 = some ("B", true) ∧
      (20 : ℚ) ≤ 22 ∧ (22 : ℚ) < 25 + 1 ∧ ¬((25 : ℚ) ≤ 22) := by
  refine ⟨?_, by norm_num, by norm_num, by norm_num⟩
  have e1 : ¬((22 : ℚ) < 20) := by norm_num
  have e2 : ¬((22 : ℚ) < 20 + 1) := by norm_num
  have e3 : (22 : ℚ) < 25 := by norm_num
  simp [resolve, resolveScan, e1, e2, e3]

/-- C1 amended: on a non-empty bracket list sorted ascending by strike, if
some bracket's half-open unit interval `[strike, strike + 1)` contains `v`,
`resolve` returns the first such bracket (the `find?` witness) with
`fallback_used = false` and `strike ≤ v < strike + 1` holds for it; and if
`v` is at or above the last bracket's interval, `resolve` returns the last
(highest-strike) bracket with `fallback_used = true`. -/
theorem resolve_first_match_and_top_fallback (br : List (ℚ × String)) (v : ℚ)
    (hne : br ≠ []) (hsort : List.Pairwise (fun a b : ℚ × String => a.1 ≤ b.1) br) :
    ((∃ sb ∈ br, sb.1 ≤ v ∧ v < sb.1 + 1) →
      ∃ q, br.find? (fun sb => decide (sb.1 ≤ v ∧ v < sb.1 + 1)) = some q ∧
        resolve br v = some (q.2, false) ∧ q.1 ≤ v ∧ v < q.1 + 1) ∧
    ((br.getLast hne).1 + 1 ≤ v → resolve br v = some ((br.getLast hne).2, true)) := by
  constructor
  · rintro ⟨sb, hmem, hsb⟩
    have hfind : (br.find? (fun sb => decide (sb.1 ≤ v ∧ v < sb.1 + 1))).isSome := by
      rw [List.find?_isSome]
      exact ⟨sb, hmem, by simpa using hsb⟩
    obtain ⟨q, hq⟩ := Option.isSome_iff_exists.mp hfind
    have hpq : q.1 ≤ v ∧ v < q.1 + 1 := by simpa using List.find?_some hq
    refine ⟨q, hq, ?_, hpq.1, hpq.2⟩
    simp only [resolve, resolveScan_eq_find, hq, Option.map_some']
  · intro hv
    have hnone : br.find? (fun sb => decide (sb.1 ≤ v ∧ v < sb.1 + 1)) = none := by
      rw [List.find?_eq_none]
      intro x hx
      have hle : x.1 ≤ (br.getLast hne).1 := pair_le_getLast br hne x hsort hx
      simp only [decide_eq_true_eq, not_and, not_lt]
      intro _
      linarith
    simp only [resolve, resolveScan_eq_find, hnone, Option.map_none',
      List.getLast?_eq_getLast br hne, Option.map_some']

/-- Witness for C1 (amended): with brackets at 21, 22, 23 the observation 22
selects the bracket `B = [22, 23)` without fallback, and 30 falls back to the
top bracket `C`. -/
theorem resolve_first_match_witness :
    resolve [((21 : ℚ), "A"), (22, "B"), (23, "C")] 22 = some ("B", false) ∧
      resolve [((21 : ℚ), "A"), (22, "B"), (23, "C")] 30 = some ("C", true) := by
  have hne : ([((21 : ℚ), "A"), (22, "B"), (23, "C")] : List (ℚ × String)) ≠ [] := by simp
  have hsort : List.Pairwise (fun a b : ℚ × String => a.1 ≤ b.1)
      [((21 : ℚ), "A"), (22, "B"), (23, "C")] := by
    norm_num [List.pairwise_cons]
  constructor
  · obtain ⟨q, hq, hr, _, _⟩ := (resolve_first_match_and_top_fallback _ 22 hne hsort).1
      ⟨((22 : ℚ), "B"), by simp, by norm_num⟩
    have c1 : ¬(((21 : ℚ), "A").1 ≤ 22 ∧ (22 : ℚ) < ((21 : ℚ), "A").1 + 1) := by norm_num
    have c2 : (((22 : ℚ), "B").1 ≤ 22 ∧ (22 : ℚ) < ((22 : ℚ), "B").1 + 1) := by norm_num
    have hq' : List.find? (fun sb => decide (sb.1 ≤ (22 : ℚ) ∧ (22 : ℚ) < sb.1 + 1))
        [((21 : ℚ), "A"), (22, "B"), (23, "C")] = some (22, "B") := by
      rw [List.find?_cons_of_neg _ (by simpa using c1),
        List.find?_cons_of_pos _ (by simpa using c2)]
    rw [hq] at hq'
    obtain rfl : q = ((22 : ℚ), "B") := Option.some.inj hq'
    exact hr
  · have hlast : ([((21 : ℚ), "A"), (22, "B"), (23, "C")].getLast hne) = (23, "C") := rfl
    have h2 := (resolve_first_match_and_top_fallback _ 30 hne hsort).2
    rw [hlast] at h2
    exact h2 (by norm_num)

/-- C4: evaluation at the failing input.  For the observation 20, strictly
below the lowest strike 21, the selection loop matches nothing and the code
does reach the `parsed[-1]` fallback, returning the top bracket `C` flagged
as `ABOVE TOP BRACKET` — the below-range observation is silently mapped to
the highest bracket. -/
theorem resolve_below_range_eval :
    resolve [((21 : ℚ), "A"), (22, "B"), (23, "C")] 20 = some ("C", true) ∧ (20 : ℚ) < 21 := by
  constructor
  · have e1 : (20 : ℚ) < 21 := by norm_num
    have e2 : (20 : ℚ) < 22 := by norm_num
    have e3 : (20 : ℚ) < 23 := by norm_num
    simp [resolve, resolveScan, e1, e2, e3]
  · norm_num

/-- C3 counterexample: `ka_bid.py` `strike_from_ticker` has no minus sign in
its pattern, so on `KXLOWTMIA-26JAN28-T-13` it returns `None`, not `-13.0`
as the claim states for strike extraction. -/
theorem strike_minus_cex : strike_from_ticker "KXLOWTMIA-26JAN28-T-13" = none := rfl

/-- C3 amended: the suffix matchers are characterized exactly by the
decomposition `stem ++ -(B|T) ++ sign? ++ digits ++ (.5)?` — with the
optional minus sign only in the `kalshi_past_bids_winfo.py` pattern
(`allowNeg = true`); `strike_sort_key` returns the parsed number, `10^9`
when no suffix matches, and `-13` on `KXLOWTMIA-26JAN28-T-13`, while
`ka_bid.py` `strike_from_ticker` (no minus sign) returns `None` there. -/
theorem strike_extraction_characterization :
    (∀ (b : Bool) (t : String) (stem : List Char) (v : ℚ),
      bucketSplit b t = some (stem, v) ↔ BucketDecomp b t stem v) ∧
    (∀ (t : String) (v : ℚ),
      strike_from_ticker t = some v ↔ ∃ stem, BucketDecomp false t stem v) ∧
    (∀ t : String, bucketSplit true t = none → strike_sort_key t = 10 ^ 9) ∧
    (∀ (t : String) (stem : List Char) (v : ℚ), bucketSplit true t = some (stem, v) →
      strike_sort_key t = v) ∧
    strike_sort_key "KXLOWTMIA-26JAN28-T-13" = -13 ∧
    strike_from_ticker "KXLOWTMIA-26JAN28-T-13" = none := by
  refine ⟨bucketSplit_iff, ?_, ?_, ?_, ?_, rfl⟩
  · intro t v
    constructor
    · intro hp
      rcases Option.map_eq_some'.mp hp with ⟨pv, hb, hv⟩
      refine ⟨pv.1, (bucketSplit_iff false t pv.1 v).mp ?_⟩
      rw [← hv]
      simpa using hb
    · rintro ⟨stem, hd⟩
      have hb := (bucketSplit_iff false t stem v).mpr hd
      simp [strike_from_ticker, hb]
  · intro t h
    simp [strike_sort_key, h]
  · intro t stem v h
    simp [strike_sort_key, h]
  · have h1 : bucketSplit true "KXLOWTMIA-26JAN28-T-13" =
        some ("KXLOWTMIA-26JAN28".data, bucketVal true false ['3', '1']) := rfl
    have h2 : natOfDigits (['3', '1'].reverse) = 13 := rfl
    calc strike_sort_key "KXLOWTMIA-26JAN28-T-13" = bucketVal true false ['3', '1'] := by
          simp only [strike_sort_key, h1, Option.map_some', Option.getD_some]
      _ = -13 := by
          simp only [bucketVal, h2, if_pos, Bool.false_eq_true, if_false]
          norm_num

/-- Witness for C3 (amended): a ticker with no bucket suffix gets the
sentinel sort key `10^9`. -/
theorem strike_extraction_witness : strike_sort_key "ABC" = 10 ^ 9 :=
  strike_extraction_characterization.2.2.1 "ABC" rfl

/-- C6: `derive_event_ticker` strips a matching bucket suffix (returning the
decomposition's stem); with no matching suffix but at least one `-`, it
removes everything after the last `-`; and on the spec's Example 1 ticker it
returns the event `KXHIGHNY-26JAN28`. -/
theorem derive_event_behavior :
    (∀ (t : String) (stem : List Char) (v : ℚ), bucketSplit true t = some (stem, v) →
      derive_event_ticker t = String.mk stem ∧ BucketDecomp true t stem v) ∧
    (∀ t : String, bucketSplit true t = none → '-' ∈ t.data →
      ∃ s, t.data = (derive_event_ticker t).data ++ '-' :: s ∧ '-' ∉ s) ∧
    derive_event_ticker "KXHIGHNY-26JAN28-B21.5" = "KXHIGHNY-26JAN28" := by
  refine ⟨?_, ?_, rfl⟩
  · intro t stem v h
    exact ⟨by simp only [derive_event_ticker, h], (bucketSplit_iff true t stem v).mp h⟩
  · intro t h hmem
    have hsp2 : 2 ≤ (splitHy t.data).length := splitHy_len_ge_two _ hmem
    obtain ⟨s, hs, hns⟩ := joinHy_dropLast_splitHy t.data hmem
    refine ⟨s, ?_, hns⟩
    simp only [derive_event_ticker, h, if_pos hsp2]
    simpa using hs

/-- Witness for C6: both branches at concrete tickers — suffix strip on
Example 1, last-segment fallback on a non-bucket ticker. -/
theorem derive_event_witness :
    derive_event_ticker "KXHIGHNY-26JAN28-B21.5" = "KXHIGHNY-26JAN28" ∧
      ∃ s, ("AB-CD-EF" : String).data = (derive_event_ticker "AB-CD-EF").data ++ '-' :: s ∧
        '-' ∉ s :=
  ⟨derive_event_behavior.2.2, derive_event_behavior.2.1 "AB-CD-EF" rfl (by decide)⟩

/-- C10: a ticker with no `-` (hence no bucket suffix) is returned unchanged
by `derive_event_ticker`. -/
theorem derive_event_no_hyphen (t : String) (h1 : '-' ∉ t.data)
    (h2 : bucketSplit true t = none) : derive_event_ticker t = t := by
  have hsp : splitHy t.data = [t.data] := splitHy_no_sep _ h1
  simp [derive_event_ticker, h2, hsp]

/-- Witness for C10 at a separator-free ticker. -/
theorem derive_event_no_hyphen_witness : derive_event_ticker "ABC" = "ABC" :=
  derive_event_no_hyphen "ABC" (by decide) rfl

lemma ka_parsed_pairwise (tickers : List String) :
    List.Pairwise (fun a b : ℚ × String => a.1 ≤ b.1) (ka_parsed tickers) := by
  have htrans : ∀ (a b c : ℚ × String), bracketLe a b → bracketLe b c → bracketLe a c := by
    intro a b c hab hbc
    simp only [bracketLe, decide_eq_true_eq] at *
    exact le_trans hab hbc
  have htotal : ∀ (a b : ℚ × String), bracketLe a b || bracketLe b a := by
    intro a b
    simpa [bracketLe] using le_total a.1 b.1
  have h := List.sorted_mergeSort htrans htotal
    (tickers.filterMap (fun t => (strike_from_ticker t).map (fun s => (s, t))))
  exact List.Pairwise.imp (fun hab => by simpa [bracketLe] using hab) h

lemma ka_parsed_perm (tickers : List String) :
    (ka_parsed tickers).Perm
      (tickers.filterMap (fun t => (strike_from_ticker t).map (fun s => (s, t)))) :=
  List.mergeSort_perm _ _

lemma fetch_sort_pairwise (ms : List Market) :
    List.Pairwise (fun a b : Market => strike_sort_key a.ticker ≤ strike_sort_key b.ticker)
      (fetch_event_markets_sort ms) := by
  have htrans : ∀ (a b c : Market), marketKeyLe a b → marketKeyLe b c → marketKeyLe a c := by
    intro a b c hab hbc
    simp only [marketKeyLe, decide_eq_true_eq] at *
    exact le_trans hab hbc
  have htotal : ∀ (a b : Market), marketKeyLe a b || marketKeyLe b a := by
    intro a b
    simpa [marketKeyLe] using le_total (strike_sort_key a.ticker) (strike_sort_key b.ticker)
  have h := List.sorted_mergeSort htrans htotal ms
  exact List.Pairwise.imp (fun hab => by simpa [marketKeyLe] using hab) h

lemma fetch_sort_perm (ms : List Market) : (fetch_event_markets_sort ms).Perm ms :=
  List.mergeSort_perm _ _

/-- C7 counterexample: no deduplication by ticker happens anywhere — the
same ticker listed twice stays twice in the `parsed` list handed to
selection in `ka_bid.py`. -/
theorem no_dedup_cex :
    ¬ List.Pairwise (fun a b : ℚ × String => a.2 ≠ b.2)
      (ka_parsed ["KXHIGHNY-26JAN28-B21", "KXHIGHNY-26JAN28-B21"]) := by
  have h1 : ka_parsed ["KXHIGHNY-26JAN28-B21", "KXHIGHNY-26JAN28-B21"] =
      [(bucketVal false false ['1', '2'], "KXHIGHNY-26JAN28-B21"),
       (bucketVal false false ['1', '2'], "KXHIGHNY-26JAN28-B21")] := by
    have hf : (["KXHIGHNY-26JAN28-B21", "KXHIGHNY-26JAN28-B21"].filterMap
        (fun t => (strike_from_ticker t).map (fun s => (s, t)))) =
        [(bucketVal false false ['1', '2'], "KXHIGHNY-26JAN28-B21"),
         (bucketVal false false ['1', '2'], "KXHIGHNY-26JAN28-B21")] := rfl
    unfold ka_parsed
    rw [hf]
    apply List.mergeSort_of_sorted
    simp [List.pairwise_cons, bracketLe]
  rw [h1]
  intro hpw
  exact (List.pairwise_cons.mp hpw).1 _ (by simp) rfl

/-- C7 amended: within a resolution call the bracket list handed to
selection is sorted ascending — `ka_bid.py` sorts the pairs by strike after
dropping brackets with no parseable strike, and `fetch_event_markets` sorts
whole market records by `strike_sort_key` (sentinel `10^9` for unparseable
tickers) — and each sorted list is a permutation of its input (no
deduplication by ticker). -/
theorem selection_list_sorted :
    (∀ tickers : List String,
      List.Pairwise (fun a b : ℚ × String => a.1 ≤ b.1) (ka_parsed tickers) ∧
      (ka_parsed tickers).Perm
        (tickers.filterMap (fun t => (strike_from_ticker t).map (fun s => (s, t))))) ∧
    (∀ ms : List Market,
      List.Pairwise (fun a b : Market => strike_sort_key a.ticker ≤ strike_sort_key b.ticker)
        (fetch_event_markets_sort ms) ∧
      (fetch_event_markets_sort ms).Perm ms) :=
  ⟨fun tickers => ⟨ka_parsed_pairwise tickers, ka_parsed_perm tickers⟩,
   fun ms => ⟨fetch_sort_pairwise ms, fetch_sort_perm ms⟩⟩

/-- C8 counterexample: a present but zero `last_price` is skipped by the
Python `or`-chain (0 is falsy), so with `last_price = 0` and `yes_bid = 50`
the implied probability is `0.5`, not the `0.0` the claim's "most recent
trade price when present" rule would give. -/
theorem implied_zero_last_cex :
    implied_pct "yes"
      { ticker := "X"
        result := none
        subtitle := none
        title := none
        description := none
        yes_title := none
        no_title := none
        last_price := some 0
        yes_bid := some 50
        yes_ask := none } = some (1/2) ∧
    ((1 : ℚ)/2) ≠ 0 := by
  constructor
  · have hcy : current_yes
        { ticker := "X"
          result := none
          subtitle := none
          title := none
          description := none
          yes_title := none
          no_title := none
          last_price := some 0
          yes_bid := some 50
          yes_ask := none } = some 50 := rfl
    simp only [implied_pct, hcy]
    norm_num [py_round4, round_half_even]
  · norm_num

/-- C8 amended: the live yes price is the first non-`None` non-zero entry of
the chain (last trade price, best yes bid) and otherwise falls through to
`yes_ask` verbatim; the implied probability is `round(cy/100, 4)` for a YES
side and `round((100 - cy)/100, 4)` for a NO side, empty when the chain ends
in `None`; and the settlement outcome depends only on the market's `result`
field, never on the quote. -/
theorem implied_quote_chain (m : Market) (v : ℤ) :
    ((m.last_price = some v ∧ v ≠ 0) → current_yes m = some v) ∧
    ((m.last_price = none ∨ m.last_price = some 0) → (m.yes_bid = some v ∧ v ≠ 0) →
      current_yes m = some v) ∧
    ((m.last_price = none ∨ m.last_price = some 0) → (m.yes_bid = none ∨ m.yes_bid = some 0) →
      current_yes m = m.yes_ask) ∧
    (current_yes m = some v →
      implied_pct "yes" m = some (py_round4 ((v : ℚ) / 100)) ∧
      implied_pct "no" m = some (py_round4 (((100 : ℚ) - (v : ℚ)) / 100))) ∧
    (current_yes m = none → implied_pct "yes" m = none ∧ implied_pct "no" m = none) ∧
    (∀ (side : String) (price shares : ℤ) (m' : Market), m.result = m'.result →
      settle_row side price shares (market_result m) =
        settle_row side price shares (market_result m')) := by
  refine ⟨?_, ?_, ?_, ?_, ?_, ?_⟩
  · rintro ⟨h, hv⟩
    simp [current_yes, pyOrInt, h, hv]
  · rintro h ⟨hb, hv⟩
    rcases h with h | h <;> simp [current_yes, pyOrInt, h, hb, hv]
  · rintro h hb
    rcases h with h | h <;> rcases hb with hb | hb <;>
      simp [current_yes, pyOrInt, h, hb]
  · intro h
    constructor <;> simp [implied_pct, h]
  · intro h
    constructor <;> simp [implied_pct, h]
  · intro side price shares m' hres
    simp [market_result, hres]

/-- Witness for C8 (amended): with no last trade and a 40-cent bid, the
chain picks the bid and the YES-side implied probability is
`round(40/100, 4)`. -/
theorem implied_quote_chain_witness :
    current_yes
      { ticker := "Y"
        result := none
        subtitle := none
        title := none
        description := none
        yes_title := none
        no_title := none
        last_price := none
        yes_bid := some 40
        yes_ask := none } = some 40 ∧
    implied_pct "yes"
      { ticker := "Y"
        result := none
        subtitle := none
        title := none
        description := none
        yes_title := none
        no_title := none
        last_price := none
        yes_bid := some 40
        yes_ask := none } = some (py_round4 (((40 : ℤ) : ℚ) / 100)) := by
  have h := implied_quote_chain
    { ticker := "Y"
      result := none
      subtitle := none
      title := none
      description := none
      yes_title := none
      no_title := none
      last_price := none
      yes_bid := some 40
      yes_ask := none } 40
  have hcy := h.2.1 (Or.inl rfl) ⟨rfl, by decide⟩
  exact ⟨hcy, (h.2.2.2.1 hcy).1⟩

/-- C9: when the fill's market result is `"YES"` or `"NO"`, the
winning-bracket fields come from the first market of the event's
strike-sorted list whose own result is `"YES"` (the `find?` witness), and
are empty when no such market exists; the scanned list is sorted ascending
by `strike_sort_key`; and when the fill's market is unresolved the fields
stay empty without scanning. -/
theorem winning_bracket_first_yes (mres : String) (ms : List Market)
    (hres : mres = "YES" ∨ mres = "NO") :
    (∀ m, (fetch_event_markets_sort ms).find?
        (fun x => decide (market_result x = "YES")) = some m →
      winning_bracket mres (fetch_event_markets_sort ms) = (m.ticker, bracket_label m) ∧
        market_result m = "YES") ∧
    ((fetch_event_markets_sort ms).find? (fun x => decide (market_result x = "YES")) = none →
      winning_bracket mres (fetch_event_markets_sort ms) = ("", "")) ∧
    List.Pairwise (fun a b : Market => strike_sort_key a.ticker ≤ strike_sort_key b.ticker)
      (fetch_event_markets_sort ms) ∧
    (∀ mres' : String, ¬(mres' = "YES" ∨ mres' = "NO") →
      winning_bracket mres' (fetch_event_markets_sort ms) = ("", "")) := by
  refine ⟨?_, ?_, fetch_sort_pairwise ms, ?_⟩
  · intro m hf
    constructor
    · simp only [winning_bracket, if_pos hres, scan_winning_eq_find, hf]
    · simpa using List.find?_some hf
  · intro hf
    simp only [winning_bracket, if_pos hres, scan_winning_eq_find, hf]
  · intro mres' hmr
    simp only [winning_bracket, if_neg hmr]

/-- Witness for C9: in a two-market event group where the higher-strike
market resolved YES, the winning-bracket fields name that market. -/
theorem winning_bracket_first_yes_witness :
    winning_bracket "NO" (fetch_event_markets_sort
      [{ ticker := "E-B21"
         result := some "no"
         subtitle := some "21 to 22"
         title := none
         description := none
         yes_title := none
         no_title := none
         last_price := none
         yes_bid := none
         yes_ask := none },
       { ticker := "E-B22"
         result := some "yes"
         subtitle := some "22 to 23"
         title := none
         description := none
         yes_title := none
         no_title := none
         last_price := none
         yes_bid := none
         yes_ask := none }]) = ("E-B22", "22 to 23") := by
  have hkey : strike_sort_key "E-B21" ≤ strike_sort_key "E-B22" := by
    have e1 : strike_sort_key "E-B21" = bucketVal false false ['1', '2'] := rfl
    have e2 : strike_sort_key "E-B22" = bucketVal false false ['2', '2'] := rfl
    have n1 : natOfDigits (['1', '2'].reverse) = 21 := rfl
    have n2 : natOfDigits (['2', '2'].reverse) = 22 := rfl
    rw [e1, e2]
    simp only [bucketVal, n1, n2, Bool.false_eq_true, if_false]
    norm_num
  have hsorted : fetch_event_markets_sort
      [{ ticker := "E-B21"
         result := some "no"
         subtitle := some "21 to 22"
         title := none
         description := none
         yes_title := none
         no_title := none
         last_price := none
         yes_bid := none
         yes_ask := none },
       { ticker := "E-B22"
         result := some "yes"
         subtitle := some "22 to 23"
         title := none
         description := none
         yes_title := none
         no_title := none
         last_price := none
         yes_bid := none
         yes_ask := none }] =
      [{ ticker := "E-B21"
         result := some "no"
         subtitle := some "21 to 22"
         title := none
         description := none
         yes_title := none
         no_title := none
         last_price := none
         yes_bid := none
         yes_ask := none },
       { ticker := "E-B22"
         result := some "yes"
         subtitle := some "22 to 23"
         title := none
         description := none
         yes_title := none
         no_title := none
         last_price := none
         yes_bid := none
         yes_ask := none }] := by
    apply List.mergeSort_of_sorted
    simp [List.pairwise_cons, marketKeyLe, hkey]
  have hfind : (fetch_event_markets_sort
      [{ ticker := "E-B21"
         result := some "no"
         subtitle := some "21 to 22"
         title := none
         description := none
         yes_title := none
         no_title := none
         last_price := none
         yes_bid := none
         yes_ask := none },
       { ticker := "E-B22"
         result := some "yes"
         subtitle := some "22 to 23"
         title := none
         description := none
         yes_title := none
         no_title := none
         last_price := none
         yes_bid := none
         yes_ask := none }]).find? (fun x => decide (market_result x = "YES")) =
      some
        { ticker := "E-B22"
          result := some "yes"
          subtitle := some "22 to 23"
          title := none
          description := none
          yes_title := none
          no_title := none
          last_price := none
          yes_bid := none
          yes_ask := none } := by
    rw [hsorted]
    rw [List.find?_cons_of_neg _ (by decide), List.find?_cons_of_pos _ (by decide)]
  exact ((winning_bracket_first_yes "NO" _ (Or.inr rfl)).1 _ hfind).1
